import Mathlib

/-!
# Verification of the doi-checker reference extraction and validation engine

Shallow embedding of `doi_checker.py` (classes `Reference`,
`PDFReferenceExtractor`, `URLValidator`) over `List Char` strings.
Regular-expression based extraction routines are embedded as executable
scanners that implement the concrete patterns appearing in the source.
Network and HTML-parsing collaborators (the HTTP session, BeautifulSoup,
fuzzywuzzy) are passed as function parameters, mirroring the external
collaborator boundary of the system.
-/

namespace DoiChecker

/-! ## Python string primitives -/

/-- ASCII whitespace as recognised by Python's `str.strip` and the regex
class `\s` (we restrict attention to ASCII inputs). -/
def pyIsSpace (c : Char) : Bool :=
  c = ' ' || c = '\t' || c = '\n' || c = '\r' || c = '\x0b' || c = '\x0c'

/-- Python `str.strip()`: remove leading and trailing whitespace. -/
def pyStrip (s : List Char) : List Char :=
  ((s.dropWhile pyIsSpace).reverse.dropWhile pyIsSpace).reverse

/-- Python `str.rstrip(chars)`: remove trailing characters drawn from a set. -/
def pyRstrip (p : Char → Bool) (s : List Char) : List Char :=
  (s.reverse.dropWhile p).reverse

/-- Characters stripped by `rstrip('.,;')` (DOI cleanup, line 167). -/
def doiPunct (c : Char) : Bool := c = '.' || c = ',' || c = ';'

/-- Characters stripped by `rstrip('.,;)')` (URL cleanup, line 174). -/
def urlPunct (c : Char) : Bool := c = '.' || c = ',' || c = ';' || c = ')'

/-- Split a character list at every character satisfying `p`, keeping empty
chunks, as Python `re.split` on a character class does. -/
def splitOnPred (p : Char → Bool) : List Char → List (List Char)
  | [] => [[]]
  | c :: rest =>
    if p c then [] :: splitOnPred p rest
    else
      match splitOnPred p rest with
      | r :: rs => (c :: r) :: rs
      | [] => [[c]]

/-- Python `str.lower()` (ASCII). -/
def lowerL (s : List Char) : List Char := s.map Char.toLower

/-- Python substring test `needle in hay` (`"" in s` is `True`). -/
def containsSub (needle : List Char) : List Char → Bool
  | [] => needle.isEmpty
  | c :: t => needle.isPrefixOf (c :: t) || containsSub needle t

/-- Regex word character `\w` (ASCII): letters, digits, underscore. -/
def isWordChar (c : Char) : Bool := c.isAlpha || c.isDigit || c = '_'

/-- Python `str.split()` (split on whitespace runs, discarding empties). -/
def pySplitWs (s : List Char) : List (List Char) :=
  (splitOnPred pyIsSpace s).filter (fun w => !w.isEmpty)

/-! ## Data model: class `Reference` (doi_checker.py, lines 21-36)

`url_check_results` is initialised to an empty dict in Python and assigned a
results record by `URLValidator.check_reference`; we model the
initialised-but-never-assigned state as `none`.  The `authors` field is kept
in the record (it is read by the validator's scoring code) but the
author-recovery heuristics of `_extract_authors_and_title` (lines 226-259)
are not embedded: no claim under verification depends on them, and the
extractor under analysis leaves the field empty. -/

/-- One inaccessible-URL record appended by `URLValidator.check_reference`
(lines 313-330): the `status_code` key is present only in the HTTP-status
branch. -/
structure InaccessibleRec where
  url : List Char
  status_code : Option Nat
  reason : List Char
deriving DecidableEq, Repr

/-- The three fields produced by `URLValidator._check_content_match`
(lines 343-347). -/
structure MatchCore where
  title_match : Nat
  authors_found : Nat
  author_matches : List (List Char × List Char)
deriving DecidableEq, Repr

/-- A content-match record as it sits in `results['match_results']`:
the core fields plus the `url`/`final_url` keys added at lines 303-304. -/
structure ContentMatch where
  title_match : Nat
  authors_found : Nat
  author_matches : List (List Char × List Char)
  url : List Char
  final_url : List Char
deriving DecidableEq, Repr

/-- The `results` dictionary built by `check_reference` (lines 276-280). -/
structure CheckResults where
  accessible_urls : List (List Char)
  inaccessible_urls : List InaccessibleRec
  match_results : List ContentMatch
deriving DecidableEq, Repr

/-- One ranked entry of `search_reference_online`'s `results` list
(lines 452-458). -/
structure ScoredResult where
  rank : Nat
  url : List Char
  title : List Char
  snippet : List Char
  match_score : Nat
deriving DecidableEq, Repr

/-- The dictionary returned by `URLValidator.search_reference_online`
(lines 411-481); optional keys model the varying shapes of the returned
dicts. -/
structure SearchOutcome where
  search_performed : Bool
  query : Option (List Char)
  results : List ScoredResult
  best_match : Option ScoredResult
  error : Option (List Char)
  reason : Option (List Char)
deriving DecidableEq, Repr

/-- Class `Reference` (lines 21-36). -/
structure Reference where
  raw_text : List Char
  authors : List (List Char)
  title : List Char
  doi : Option (List Char)
  urls : List (List Char)
  year : Option (List Char)
  is_accessible : Bool
  url_check_results : Option CheckResults
  search_results : Option SearchOutcome
deriving DecidableEq, Repr

/-- `Reference.__init__` (lines 24-33). -/
def mkReference (raw : List Char) : Reference :=
  { raw_text := raw, authors := [], title := [], doi := none, urls := [],
    year := none, is_accessible := false, url_check_results := none,
    search_results := none }

/-! ## DOI extraction (lines 163-168)

Pattern `(?:doi|DOI)[\s:]*10\.\d{4,}(?:\.\d+)*/[^\s,;]+` with
`re.IGNORECASE`.  Each quantifier here commits to its maximal munch: the
character following each starred class can never belong to that class
(`1` is neither whitespace nor a colon, `/` and `.` are not digits), so the
backtracking regex engine and this deterministic scanner agree. -/

/-- Consume `(?:\.\d+)*` greedily, returning the consumed characters and the
remainder. -/
def dotDigitGroupsAux : Nat → List Char → List Char × List Char
  | 0, s => ([], s)
  | fuel + 1, s =>
    match s with
    | '.' :: c :: rest =>
      if c.isDigit then
        let digs := (c :: rest).takeWhile Char.isDigit
        let (more, rem) := dotDigitGroupsAux fuel ((c :: rest).drop digs.length)
        ('.' :: digs ++ more, rem)
      else ([], '.' :: c :: rest)
    | other => ([], other)

def dotDigitGroups (s : List Char) : List Char × List Char :=
  dotDigitGroupsAux s.length s

/-- Try to match the DOI pattern anchored at the head of `s`, returning the
whole matched text (`group(0)`). -/
def matchDoiAt (s : List Char) : Option (List Char) :=
  match s with
  | c1 :: c2 :: c3 :: rest =>
    if c1.toLower = 'd' && c2.toLower = 'o' && c3.toLower = 'i' then
      let gap := rest.takeWhile (fun c => pyIsSpace c || c = ':')
      match rest.drop gap.length with
      | '1' :: '0' :: '.' :: body =>
        let digs := body.takeWhile Char.isDigit
        if digs.length ≥ 4 then
          let (groups, afterGroups) := dotDigitGroups (body.drop digs.length)
          match afterGroups with
          | '/' :: tail =>
            let sfx := tail.takeWhile (fun c => !(pyIsSpace c || c = ',' || c = ';'))
            if sfx.isEmpty then none
            else some (c1 :: c2 :: c3 :: gap ++ '1' :: '0' :: '.' :: digs ++ groups ++ '/' :: sfx)
          | _ => none
        else none
      | _ => none
    else none
  | _ => none

/-- `re.search` of the DOI pattern: leftmost match. -/
def searchDoi : List Char → Option (List Char)
  | [] => none
  | c :: t =>
    match matchDoiAt (c :: t) with
    | some m => some m
    | none => searchDoi t

/-- Python `split(':', 1)[-1]`: everything after the first colon, or the
whole string when no colon occurs. -/
def afterFirstColon (s : List Char) : List Char :=
  match s.dropWhile (fun c => c ≠ ':') with
  | [] => s
  | _ :: rest => rest

/-- Line 167: `doi_match.group(0).split(':', 1)[-1].strip().rstrip('.,;')`. -/
def cleanDoi (m : List Char) : List Char :=
  pyRstrip doiPunct (pyStrip (afterFirstColon m))

/-! ## Literal URL extraction (lines 170-176)

Pattern `https?://[^\s,\]\)]+(?:[^\s\.,\]\)])`.  The final one-character
class forces the match to end at the last character of the bracket run that
is not a dot; greedy backtracking therefore yields the maximal
`[^\s,\]\)]` run with trailing dots removed, provided at least two
characters remain. -/

/-- Try to match the URL pattern at the head of `s`; return the match and
the remainder of the text after it. -/
def matchUrlAt (s : List Char) : Option (List Char × List Char) :=
  let core : List Char → Option (List Char × List Char) := fun afterScheme =>
    let run := afterScheme.takeWhile
      (fun c => !(pyIsSpace c || c = ',' || c = ']' || c = ')'))
    let kept := pyRstrip (fun c => c = '.') run
    if kept.length ≥ 2 then
      some (kept, afterScheme.drop kept.length)
    else none
  match s with
  | 'h' :: 't' :: 't' :: 'p' :: 's' :: ':' :: '/' :: '/' :: rest =>
    (core rest).map (fun (m, rem) => ("https://".data ++ m, rem))
  | 'h' :: 't' :: 't' :: 'p' :: ':' :: '/' :: '/' :: rest =>
    (core rest).map (fun (m, rem) => ("http://".data ++ m, rem))
  | _ => none

/-- `re.findall` of the URL pattern: leftmost, non-overlapping matches,
scanning resuming after each match.  Fuel-based recursion (each step either
consumes a character or a non-empty match). -/
def findallUrlsAux : Nat → List Char → List (List Char)
  | 0, _ => []
  | _ + 1, [] => []
  | fuel + 1, c :: t =>
    match matchUrlAt (c :: t) with
    | some (m, rem) => m :: findallUrlsAux fuel rem
    | none => findallUrlsAux fuel t

def findallUrls (s : List Char) : List (List Char) := findallUrlsAux s.length s

/-- Lines 173-176: rstrip each found URL and append if not already present. -/
def appendUrl (us : List (List Char)) (u : List Char) : List (List Char) :=
  let u' := pyRstrip urlPunct u
  if u' ∈ us then us else us ++ [u']

/-! ## Year extraction (lines 178-182)

Pattern `\b(19|20)\d{2}\b` via `re.findall`, whose result, because the
pattern contains one capturing group, is the list of *group-1* captures —
the two characters `19`/`20`, not the four-digit year.  `year_matches[0]`
is the first such capture. -/

/-- Does the year pattern match at the head of `s`, with `prev` the
character immediately before (for the leading `\b`)?  Returns the group-1
capture. -/
def matchYearAt (prev : Option Char) (s : List Char) : Option (List Char) :=
  match s with
  | a :: b :: c :: d :: rest =>
    if ((a = '1' && b = '9') || (a = '2' && b = '0'))
        && c.isDigit && d.isDigit
        && (match prev with | none => true | some p => !isWordChar p)
        && (match rest with | [] => true | e :: _ => !isWordChar e) then
      some [a, b]
    else none
  | _ => none

def findYearAux (prev : Option Char) : List Char → Option (List Char)
  | [] => none
  | c :: t =>
    match matchYearAt prev (c :: t) with
    | some g => some g
    | none => findYearAux (some c) t

/-- First capture of `re.findall(r'\b(19|20)\d{2}\b', text)`, if any. -/
def findYearGroup (s : List Char) : Option (List Char) := findYearAux none s

/-! ## Title extraction (`_extract_authors_and_title`, lines 187-224)

Only the title-producing part of the method is embedded; the subsequent
author recovery (lines 226-259) feeds no claim and is left out.  The
method first scrubs URLs (`https?://[^\s]+`) and a DOI variant
(`(?:doi|DOI)[\s:]*[10]\.\d{4,}(?:\.\d+)*\/[^\s]+`, case sensitive, with
`[10]` a one-character class) from the text, then looks for a quoted
title, then falls back to the first long comma/period-delimited clause. -/

/-- Match `https?://[^\s]+` at the head of `s`; return match and rest. -/
def matchBareUrlAt (s : List Char) : Option (List Char × List Char) :=
  let core : List Char → Option (List Char × List Char) := fun afterScheme =>
    let run := afterScheme.takeWhile (fun c => !pyIsSpace c)
    if run.isEmpty then none else some (run, afterScheme.drop run.length)
  match s with
  | 'h' :: 't' :: 't' :: 'p' :: 's' :: ':' :: '/' :: '/' :: rest =>
    (core rest).map (fun (m, rem) => ("https://".data ++ m, rem))
  | 'h' :: 't' :: 't' :: 'p' :: ':' :: '/' :: '/' :: rest =>
    (core rest).map (fun (m, rem) => ("http://".data ++ m, rem))
  | _ => none

/-- `re.sub(r'https?://[^\s]+', '', text)`: delete every match. -/
def subUrlsAux : Nat → List Char → List Char
  | 0, s => s
  | _ + 1, [] => []
  | fuel + 1, c :: t =>
    match matchBareUrlAt (c :: t) with
    | some (_, rem) => subUrlsAux fuel rem
    | none => c :: subUrlsAux fuel t

def subUrls (s : List Char) : List Char := subUrlsAux s.length s

/-- Match the scrub-DOI pattern
`(?:doi|DOI)[\s:]*[10]\.\d{4,}(?:\.\d+)*\/[^\s]+` at the head of `s`
(no IGNORECASE flag here, and the body starts with a single `1`-or-`0`
character followed by a dot).  Returns match and rest. -/
def matchScrubDoiAt (s : List Char) : Option (List Char × List Char) :=
  let isLabel : List Char → Bool := fun l => l = "doi".data || l = "DOI".data
  match s with
  | c1 :: c2 :: c3 :: rest =>
    if isLabel [c1, c2, c3] then
      let gap := rest.takeWhile (fun c => pyIsSpace c || c = ':')
      match rest.drop gap.length with
      | d0 :: '.' :: body =>
        if d0 = '1' || d0 = '0' then
          let digs := body.takeWhile Char.isDigit
          if digs.length ≥ 4 then
            let (groups, afterGroups) := dotDigitGroups (body.drop digs.length)
            match afterGroups with
            | '/' :: tail =>
              let sfx := tail.takeWhile (fun c => !pyIsSpace c)
              if sfx.isEmpty then none
              else some (c1 :: c2 :: c3 :: gap ++ d0 :: '.' :: digs ++ groups
                           ++ '/' :: sfx,
                         tail.drop sfx.length)
            | _ => none
          else none
        else none
      | _ => none
    else none
  | _ => none

/-- `re.sub` of the scrub-DOI pattern. -/
def subScrubDoiAux : Nat → List Char → List Char
  | 0, s => s
  | _ + 1, [] => []
  | fuel + 1, c :: t =>
    match matchScrubDoiAt (c :: t) with
    | some (_, rem) => subScrubDoiAux fuel rem
    | none => c :: subScrubDoiAux fuel t

def subScrubDoi (s : List Char) : List Char := subScrubDoiAux s.length s

/-- Lines 192-193: the cleaned text both title passes operate on. -/
def cleanedText (t : List Char) : List Char := subScrubDoi (subUrls t)

/-- `re.search` of `q([^q]+)q` for a quote character `q`: returns
`(group(0), group(1))` of the leftmost match. -/
def searchQuoted (q : Char) : List Char → Option (List Char × List Char)
  | [] => none
  | c :: t =>
    if c = q then
      let run := t.takeWhile (fun d => d ≠ q)
      if run.isEmpty then searchQuoted q t
      else
        match t.drop run.length with
        | d :: _ => if d = q then some (q :: run ++ [q], run) else searchQuoted q t
        | [] => searchQuoted q t
    else searchQuoted q t

/-- Longest prefix `g` of `run` such that `run = g ++ '\'' :: '\'' :: _`
(any `g`, including the empty one); `none` when no double-apostrophe pair
occurs.  This is the greedy capture of `([^`+"`"+`]+)''` restricted to
`run`. -/
def longestBeforeApos : List Char → Option (List Char)
  | [] => none
  | c :: t =>
    match longestBeforeApos t with
    | some g => some (c :: g)
    | none =>
      match c :: t with
      | '\'' :: '\'' :: _ => some []
      | _ => none

/-- Match ```` ``([^`]+)'' ```` at the head of `s`:
two backticks, a non-empty captured run, closed by two apostrophes. -/
def matchBacktickAt (s : List Char) : Option (List Char × List Char) :=
  match s with
  | '`' :: '`' :: rest =>
    let run := rest.takeWhile (fun d => d ≠ '`')
    match longestBeforeApos run with
    | some [] => none
    | some g => some ('`' :: '`' :: g ++ '\'' :: '\'' :: [], g)
    | none => none
  | _ => none

/-- `re.search` of the backtick title pattern. -/
def searchBacktick : List Char → Option (List Char × List Char)
  | [] => none
  | c :: t =>
    match matchBacktickAt (c :: t) with
    | some r => some r
    | none => searchBacktick t

/-- Lines 199-211: the three title patterns tried in fixed order;
returns `(group(0), group(1))` of the first pattern that matches. -/
def findQuotedTitle (ct : List Char) : Option (List Char × List Char) :=
  match searchQuoted '"' ct with
  | some r => some r
  | none =>
    match searchQuoted '\'' ct with
    | some r => some r
    | none => searchBacktick ct

/-- Python `str.replace(old, '', 1)`: remove the first occurrence of
`pat` as a substring (identity when absent; `pat` is non-empty at every
call site). -/
def removeFirst (s pat : List Char) : List Char :=
  if pat.isPrefixOf s then s.drop pat.length
  else
    match s with
    | [] => []
    | c :: t => c :: removeFirst t pat

/-- `re.match(r'^[A-Z]\s*\.\s*[A-Z]', part)`: an initials run such as
`"A. B"` (line 221). -/
def initialsRun (p : List Char) : Bool :=
  match p with
  | c :: rest =>
    c.isUpper &&
      (match rest.dropWhile pyIsSpace with
       | '.' :: r2 =>
         (match r2.dropWhile pyIsSpace with
          | d :: _ => d.isUpper
          | [] => false)
       | _ => false)
  | [] => false

/-- Lines 217-224: split on `[,\.]`, take the first stripped part longer
than 30 characters that is not an initials run; empty when none exists. -/
def fallbackTitle (ct : List Char) : List Char :=
  (((splitOnPred (fun c => c = ',' || c = '.') ct).map pyStrip).find?
      (fun p => p.length > 30 && !initialsRun p)).getD []

/-- The title produced by `_extract_authors_and_title` (lines 187-224).
When a quoted title is found its `group(0)` is also removed from the
cleaned text (line 210), which matters for the fallback pass when the
quoted capture strips to the empty string. -/
def extractTitle (t : List Char) : List Char :=
  let ct := cleanedText t
  match findQuotedTitle ct with
  | some (g0, g1) =>
    let ti := pyStrip g1
    if ti.isEmpty then fallbackTitle (removeFirst ct g0) else ti
  | none => fallbackTitle ct

/-! ## `_parse_reference_details` (lines 159-185) -/

/-- The canonical DOI URL of line 168. -/
def doiOrgUrl (d : List Char) : List Char := "https://doi.org/".data ++ d

/-- `PDFReferenceExtractor._parse_reference_details`: DOI, literal URLs,
year and title, each pass reading `ref.raw_text`. -/
def parseReferenceDetails (ref : Reference) : Reference :=
  let text := ref.raw_text
  let ref1 :=
    match searchDoi text with
    | some m =>
      let d := cleanDoi m
      { ref with doi := some d, urls := ref.urls ++ [doiOrgUrl d] }
    | none => ref
  let ref2 := { ref1 with urls := (findallUrls text).foldl appendUrl ref1.urls }
  let ref3 :=
    match findYearGroup text with
    | some y => { ref2 with year := some y }
    | none => ref2
  { ref3 with title := extractTitle text }

/-- Lines 152-153: a fresh `Reference` built from one entry string and run
through `_parse_reference_details`. -/
def parseEntry (t : List Char) : Reference := parseReferenceDetails (mkReference t)

/-! ## Segmentation: `parse_references` (lines 83-157)

The three numbering grammars are `re.split` patterns with one capturing
group, so the split result alternates text chunks with captured entry
numbers.  Each pattern requires a newline before the marker. -/

/-- Match `\n\s*\[(\d+)\]\s*` at the head of `s`: returns the captured
number and the count of characters consumed. -/
def matchBracketMarkerAt (s : List Char) : Option (List Char × Nat) :=
  match s with
  | '\n' :: t =>
    let gap := t.takeWhile pyIsSpace
    match t.drop gap.length with
    | '[' :: t2 =>
      let digs := t2.takeWhile Char.isDigit
      if digs.isEmpty then none
      else
        match t2.drop digs.length with
        | ']' :: t3 =>
          let tail := t3.takeWhile pyIsSpace
          some (digs, 1 + gap.length + 1 + digs.length + 1 + tail.length)
        | _ => none
    | _ => none
  | _ => none

/-- Match `\n\s*(\d+)\.\s+` at the head of `s`. -/
def matchDotMarkerAt (s : List Char) : Option (List Char × Nat) :=
  match s with
  | '\n' :: t =>
    let gap := t.takeWhile pyIsSpace
    let t2 := t.drop gap.length
    let digs := t2.takeWhile Char.isDigit
    if digs.isEmpty then none
    else
      match t2.drop digs.length with
      | '.' :: t3 =>
        let tail := t3.takeWhile pyIsSpace
        if tail.isEmpty then none
        else some (digs, 1 + gap.length + digs.length + 1 + tail.length)
      | _ => none
  | _ => none

/-- Match `\n\s*\((\d+)\)\s*` at the head of `s`. -/
def matchParenMarkerAt (s : List Char) : Option (List Char × Nat) :=
  match s with
  | '\n' :: t =>
    let gap := t.takeWhile pyIsSpace
    match t.drop gap.length with
    | '(' :: t2 =>
      let digs := t2.takeWhile Char.isDigit
      if digs.isEmpty then none
      else
        match t2.drop digs.length with
        | ')' :: t3 =>
          let tail := t3.takeWhile pyIsSpace
          some (digs, 1 + gap.length + 1 + digs.length + 1 + tail.length)
        | _ => none
    | _ => none
  | _ => none

/-- `re.split` with one capturing group: emit the text before each
leftmost match, then the capture, and finally the remaining text. -/
def reSplitAux (tryAt : List Char → Option (List Char × Nat)) :
    Nat → List Char → List Char → List (List Char)
  | 0, acc, s => [acc.reverse ++ s]
  | fuel + 1, acc, s =>
    match tryAt s with
    | some (g, k) => acc.reverse :: g :: reSplitAux tryAt fuel [] (s.drop k)
    | none =>
      match s with
      | [] => [acc.reverse]
      | c :: t => reSplitAux tryAt fuel (c :: acc) t

def reSplit (tryAt : List Char → Option (List Char × Nat)) (s : List Char) :
    List (List Char) :=
  reSplitAux tryAt (s.length + 1) [] s

/-- `re.search` for a marker pattern: does it match anywhere? -/
def hasMarker (tryAt : List Char → Option (List Char × Nat)) : List Char → Bool
  | [] => (tryAt []).isSome
  | c :: t => (tryAt (c :: t)).isSome || hasMarker tryAt t

/-- Lines 114-119: after dropping the part before the first marker, the
parts alternate captured number (even index) and entry text (odd index);
collect the odd-index parts. -/
def oddParts : List (List Char) → List (List Char)
  | _ :: txt :: rest => txt :: oddParts rest
  | _ => []

/-- Lines 100-119: turn one `re.split` result into entry strings: the
stripped leading part if non-empty, then each stripped non-empty
odd-index part. -/
def refsFromParts (parts : List (List Char)) : List (List Char) :=
  match parts with
  | [] => []
  | p0 :: rest =>
    (if (pyStrip p0).isEmpty then [] else [pyStrip p0])
      ++ ((oddParts rest).map pyStrip).filter (fun r => !r.isEmpty)

/-- `^[A-Z][a-z]+,\s*[A-Z]` (line 137). -/
def authorStartComma (line : List Char) : Bool :=
  match line with
  | c :: t =>
    c.isUpper &&
      (let low := t.takeWhile Char.isLower
       if low.isEmpty then false
       else
         match t.drop low.length with
         | ',' :: t2 =>
           (match t2.dropWhile pyIsSpace with
            | d :: _ => d.isUpper
            | [] => false)
         | _ => false)
  | [] => false

/-- `^[A-Z][a-z]+\s+[A-Z]` (line 138). -/
def authorStartSpace (line : List Char) : Bool :=
  match line with
  | c :: t =>
    c.isUpper &&
      (let low := t.takeWhile Char.isLower
       if low.isEmpty then false
       else
         let sp := (t.drop low.length).takeWhile pyIsSpace
         if sp.isEmpty then false
         else
           match (t.drop low.length).drop sp.length with
           | d :: _ => d.isUpper
           | [] => false)
  | [] => false

/-- One step of the line-based fallback loop (lines 129-142), over the
state (collected entries, current entry). -/
def lineStep (st : List (List Char) × List Char) (rawLine : List Char) :
    List (List Char) × List Char :=
  let line := pyStrip rawLine
  let (refs, cur) := st
  if line.isEmpty then
    if cur.isEmpty then (refs, cur) else (refs ++ [cur], [])
  else if !cur.isEmpty && (authorStartComma line || authorStartSpace line) then
    (refs ++ [cur], line)
  else if cur.isEmpty then (refs, line)
  else (refs, cur ++ ' ' :: line)

/-- Lines 125-145: blank-line / author-heuristic fallback splitting. -/
def lineBasedSplit (text : List Char) : List (List Char) :=
  let (refs, cur) := (splitOnPred (fun c => c = '\n') text).foldl lineStep ([], [])
  if cur.isEmpty then refs else refs ++ [cur]

/-- Lines 89-145: the `split_refs` list.  Each grammar is tried in fixed
order; the first one whose `re.search` fires *and* whose split yields at
least one entry wins (`break` at line 122); otherwise the line-based
fallback runs. -/
def splitRefs (text : List Char) : List (List Char) :=
  let r1 := if hasMarker matchBracketMarkerAt text
            then refsFromParts (reSplit matchBracketMarkerAt text) else []
  if !r1.isEmpty then r1
  else
    let r2 := if hasMarker matchDotMarkerAt text
              then refsFromParts (reSplit matchDotMarkerAt text) else []
    if !r2.isEmpty then r2
    else
      let r3 := if hasMarker matchParenMarkerAt text
                then refsFromParts (reSplit matchParenMarkerAt text) else []
      if !r3.isEmpty then r3
      else lineBasedSplit text

/-- Lines 149-157: keep entries longer than 20 characters and parse each
into a `Reference`. -/
def parseReferences (text : List Char) : List Reference :=
  ((splitRefs text).filter (fun r => r.length > 20)).map parseEntry

/-! ## `URLValidator.check_reference` (lines 274-339)

The HTTP session is modelled by a function from URL to the outcome of the
`session.get` call: a response (status code, post-redirect
`response.url`, body) or one of the two caught exception classes
(`requests.exceptions.Timeout`, other `RequestException`s).
`_check_content_match` (lines 341-404) runs BeautifulSoup over the fetched
body, an external collaborator, so it is passed in as a function `cm`
producing the three match fields; `check_reference` adds the `url` and
`final_url` keys itself (lines 303-304).  `search_reference_online`
performs network search, likewise passed in as `so`.  The rate-limiting
`time.sleep` calls and progress printing are I/O with no effect on the
data flow and are not modelled. -/

/-- Outcome of one `session.get(url, ...)` call. -/
inductive FetchOutcome where
  | success (status : Nat) (finalUrl : List Char) (body : List Char)
  | timeout
  | failure (msg : List Char)
deriving DecidableEq, Repr

/-- Line 292: `200 <= response.status_code < 300`. -/
def isOk (fetch : List Char → FetchOutcome) (u : List Char) : Bool :=
  match fetch u with
  | .success s _ _ => 200 ≤ s && s < 300
  | _ => false

/-- The body of the per-URL loop (lines 282-331), threading the `results`
record and the (mutated) reference. -/
def processUrl (fetch : List Char → FetchOutcome)
    (cm : List Char → Reference → MatchCore)
    (st : CheckResults × Reference) (u : List Char) : CheckResults × Reference :=
  let (results, ref) := st
  match fetch u with
  | .success s finalUrl body =>
    if 200 ≤ s && s < 300 then
      let ref' := { ref with is_accessible := true }
      let mc := cm body ref'
      ({ results with
          accessible_urls := results.accessible_urls ++ [u],
          match_results := results.match_results ++
            [{ title_match := mc.title_match, authors_found := mc.authors_found,
               author_matches := mc.author_matches, url := u, final_url := finalUrl }] },
       ref')
    else
      ({ results with
          inaccessible_urls := results.inaccessible_urls ++
            [{ url := u, status_code := some s,
               reason := "HTTP ".data ++ (Nat.repr s).data }] },
       ref)
  | .timeout =>
    ({ results with
        inaccessible_urls := results.inaccessible_urls ++
          [{ url := u, status_code := none, reason := "Timeout".data }] },
     ref)
  | .failure msg =>
    ({ results with
        inaccessible_urls := results.inaccessible_urls ++
          [{ url := u, status_code := none, reason := msg }] },
     ref)

/-- `URLValidator.check_reference` (lines 274-339): loop over
`ref.urls`, optionally run the search fallback, store the results record
on the reference, and return it together with the updated reference. -/
def checkReference (fetch : List Char → FetchOutcome)
    (cm : List Char → Reference → MatchCore)
    (so : Reference → SearchOutcome) (enableSearch : Bool)
    (ref : Reference) : CheckResults × Reference :=
  let (results, ref1) := ref.urls.foldl (processUrl fetch cm) (⟨[], [], []⟩, ref)
  let ref2 :=
    if ref.urls.isEmpty && enableSearch
    then { ref1 with search_results := some (so ref1) }
    else ref1
  (results, { ref2 with url_check_results := some results })

/-! ## Search-result scoring: `_check_search_result_match` (lines 523-562)

`fuzz.partial_ratio` is the external fuzzy-similarity collaborator,
passed in as a function. -/

/-- One raw search result as produced by `_perform_search`
(lines 509-513). -/
structure SearchEntry where
  title : List Char
  url : List Char
  snippet : List Char
deriving DecidableEq, Repr

/-- Lines 548-549: surname of an author string — the stripped text before
the first comma when one occurs, else the first whitespace-separated
token.  (On a whitespace-only author Python would raise `IndexError`;
such authors never arise, and we return the empty list there.) -/
def lastNameOf (author : List Char) : List Char :=
  if ',' ∈ author then pyStrip (author.takeWhile (fun c => c ≠ ','))
  else (pySplitWs author).headD []

/-- `URLValidator._check_search_result_match` (lines 523-562): weighted
component scores collected into a list, averaged with integer
truncation. -/
def checkSearchResultMatch (fuzzPartial : List Char → List Char → Nat)
    (sr : SearchEntry) (ref : Reference) : Nat :=
  let scores : List Nat := []
  let scores := if !ref.title.isEmpty && !sr.title.isEmpty
    then scores ++ [fuzzPartial (lowerL ref.title) (lowerL sr.title) * 2]
    else scores
  let scores := if !ref.title.isEmpty && !sr.snippet.isEmpty
    then scores ++ [fuzzPartial (lowerL ref.title) (lowerL sr.snippet)]
    else scores
  let scores := if !ref.authors.isEmpty && !sr.snippet.isEmpty then
      (if (ref.authors.take 3).any
            (fun a => containsSub (lowerL (lastNameOf a)) (lowerL sr.snippet))
       then scores ++ [70] else scores)
    else scores
  let scores :=
    match ref.year with
    | some y =>
      if !y.isEmpty && !sr.snippet.isEmpty then
        (if containsSub y sr.snippet then scores ++ [50] else scores)
      else scores
    | none => scores
  if scores.isEmpty then 0 else scores.sum / scores.length

/-! ## Concrete fixtures used by witnesses and counterexamples -/

/-- A reference with four URLs, one per classification branch. -/
def refFour : Reference :=
  { mkReference "entry with several links".data with
      urls := ["u1".data, "u2".data, "u3".data, "u4".data] }

/-- A fetch oracle exercising all four classification branches. -/
def fetchFour (u : List Char) : FetchOutcome :=
  if u = "u1".data then .success 200 "f1".data "body1".data
  else if u = "u2".data then .success 404 "f2".data "body2".data
  else if u = "u3".data then .timeout
  else .failure "boom".data

/-- A content matcher returning fixed scores. -/
def cmZero : List Char → Reference → MatchCore := fun _ _ => ⟨0, 0, []⟩

/-- A search collaborator with a fixed answer. -/
def soFixed : Reference → SearchOutcome :=
  fun _ => ⟨true, some "q".data, [], none, none, none⟩

/-- A reference with no URLs at all. -/
def refNoUrls : Reference := mkReference "an entry without any link".data

/-- A reference with one URL that answers 200. -/
def refOne : Reference :=
  { mkReference "entry with one link".data with urls := ["a".data] }

def fetchOk : List Char → FetchOutcome :=
  fun _ => .success 204 "final".data "body".data

/-- Scoring fixtures: a reference with title and one author, no year. -/
def refScore : Reference :=
  { mkReference "e".data with
      title := "deep learning".data, authors := ["Smith, J.".data] }

/-- Same but without authors (no bonus can fire). -/
def refScoreNoAuthors : Reference :=
  { mkReference "e".data with title := "deep learning".data }

/-- Scoring fixture with title, author and year. -/
def refScoreFull : Reference :=
  { mkReference "e".data with
      title := "deep learning".data, authors := ["Smith, J.".data],
      year := some "2020".data }

/-- A search result whose snippet contains the author surname. -/
def srScore : SearchEntry :=
  ⟨"some result title".data, "u".data, "by smith and friends".data⟩

/-- A search result whose snippet contains surname and year. -/
def srScoreFull : SearchEntry :=
  ⟨"some result title".data, "u".data, "by smith in 2020".data⟩

/-- A fuzzy oracle giving the result title 80 and anything else 40. -/
def fuzzEighty : List Char → List Char → Nat :=
  fun _ b => if b = "some result title".data then 80 else 40

/-- A fuzzy oracle that always returns 100. -/
def fuzzHundred : List Char → List Char → Nat := fun _ _ => 100

/-! ## Helper lemmas -/

theorem mem_dropWhile_of_neg {p : Char → Bool} {c : Char} (hc : p c = false) :
    ∀ {l : List Char}, c ∈ l → c ∈ l.dropWhile p := by
  intro l
  induction l with
  | nil => intro h; cases h
  | cons d t ih =>
    intro h
    rw [List.dropWhile_cons]
    by_cases hd : p d
    · simp only [hd, if_true]
      rcases List.mem_cons.mp h with rfl | h
      · rw [hc] at hd; cases hd
      · exact ih h
    · simp only [hd, if_false]
      exact h

theorem not_head_dropWhile {p : Char → Bool} :
    ∀ {l r : List Char} {c : Char}, l.dropWhile p = c :: r → p c = false := by
  intro l
  induction l with
  | nil => intro r c h; cases h
  | cons d t ih =>
    intro r c h
    rw [List.dropWhile_cons] at h
    by_cases hd : p d
    · simp only [hd, if_true] at h
      exact ih h
    · simp only [hd, if_false] at h
      cases h
      simpa using hd

theorem mem_pyRstrip {p : Char → Bool} {c : Char} {l : List Char}
    (hc : p c = false) (h : c ∈ l) : c ∈ pyRstrip p l := by
  unfold pyRstrip
  rw [List.mem_reverse]
  exact mem_dropWhile_of_neg hc (List.mem_reverse.mpr h)

theorem mem_pyStrip {c : Char} {l : List Char}
    (hc : pyIsSpace c = false) (h : c ∈ l) : c ∈ pyStrip l := by
  unfold pyStrip
  rw [List.mem_reverse]
  exact mem_dropWhile_of_neg hc
    (List.mem_reverse.mpr (mem_dropWhile_of_neg hc h))

theorem getLast?_pyRstrip {p : Char → Bool} {l d : List Char} {c : Char}
    (hd : pyRstrip p l = d) (hc : d.getLast? = some c) : p c = false := by
  subst hd
  unfold pyRstrip at hc
  rw [List.getLast?_reverse] at hc
  rcases hr : l.reverse.dropWhile p with _ | ⟨x, r⟩
  · rw [hr] at hc; cases hc
  · rw [hr] at hc
    simp only [List.head?_cons, Option.some.injEq] at hc
    subst hc
    exact not_head_dropWhile hr

theorem nodup_append_singleton {l : List (List Char)} {u : List Char}
    (hl : l.Nodup) (hu : u ∉ l) : (l ++ [u]).Nodup := by
  rw [List.nodup_append]
  refine ⟨hl, List.nodup_singleton u, ?_⟩
  intro x hx hx'
  rcases List.mem_singleton.mp hx' with rfl
  exact hu hx

theorem nodup_appendUrl {l : List (List Char)} {u : List Char}
    (hl : l.Nodup) : (appendUrl l u).Nodup := by
  unfold appendUrl
  by_cases h : pyRstrip urlPunct u ∈ l
  · simp only [h, if_true]; exact hl
  · simp only [h, if_false]; exact nodup_append_singleton hl h

theorem nodup_foldl_appendUrl :
    ∀ (cs : List (List Char)) {l : List (List Char)},
      l.Nodup → (cs.foldl appendUrl l).Nodup := by
  intro cs
  induction cs with
  | nil => intro l hl; exact hl
  | cons c t ih =>
    intro l hl
    exact ih (nodup_appendUrl hl)

theorem mem_appendUrl {l : List (List Char)} {u v : List Char}
    (h : u ∈ l) : u ∈ appendUrl l v := by
  unfold appendUrl
  by_cases hv : pyRstrip urlPunct v ∈ l
  · simpa [hv]
  · simp only [hv, if_false, List.mem_append]
    exact Or.inl h

theorem mem_foldl_appendUrl :
    ∀ (cs : List (List Char)) {l : List (List Char)} {u : List Char},
      u ∈ l → u ∈ cs.foldl appendUrl l := by
  intro cs
  induction cs with
  | nil => intro l u h; exact h
  | cons c t ih =>
    intro l u h
    exact ih (mem_appendUrl h)

theorem list_find?_congr {p q : List Char → Bool} :
    ∀ {l : List (List Char)}, (∀ x ∈ l, p x = q x) → l.find? p = l.find? q := by
  intro l
  induction l with
  | nil => intro _; rfl
  | cons c t ih =>
    intro h
    have hc := h c (List.mem_cons_self c t)
    rw [List.find?_cons, List.find?_cons, hc]
    by_cases hq : q c
    · simp [hq]
    · simp only [hq, cond_false]
      exact ih (fun x hx => h x (List.mem_cons_of_mem c hx))

theorem splitOnPred_chunk_chars {p : Char → Bool} :
    ∀ {s : List Char} {chunk : List Char}, chunk ∈ splitOnPred p s →
      ∀ {c : Char}, c ∈ chunk → p c = false := by
  intro s
  induction s with
  | nil =>
    intro chunk hchunk c hc
    simp only [splitOnPred, List.mem_singleton] at hchunk
    subst hchunk; cases hc
  | cons d t ih =>
    intro chunk hchunk c hc
    rw [splitOnPred] at hchunk
    by_cases hd : p d
    · rw [if_pos hd] at hchunk
      rcases List.mem_cons.mp hchunk with rfl | hchunk
      · cases hc
      · exact ih hchunk hc
    · rw [if_neg hd] at hchunk
      rcases hr : splitOnPred p t with _ | ⟨r, rs⟩ <;> rw [hr] at hchunk
      · rcases List.mem_singleton.mp hchunk with rfl
        rcases List.mem_singleton.mp hc with rfl
        simpa using hd
      · rcases List.mem_cons.mp hchunk with rfl | hchunk
        · rcases List.mem_cons.mp hc with rfl | hcr
          · simpa using hd
          · exact ih (hr ▸ List.mem_cons_self r rs) hcr
        · exact ih (hr ▸ List.mem_cons_of_mem r hchunk) hc

/-- Shape of a DOI match: a three-character case-insensitive `doi` label,
a run of whitespace/colon separators, then the literal `10.` opening the
DOI body. -/
theorem matchDoiAt_shape {s m : List Char} (h : matchDoiAt s = some m) :
    ∃ c1 c2 c3 gap body,
      m = c1 :: c2 :: c3 :: (gap ++ '1' :: '0' :: '.' :: body) ∧
      (∀ c ∈ gap, pyIsSpace c = true ∨ c = ':') ∧
      c1.toLower = 'd' ∧ c2.toLower = 'o' ∧ c3.toLower = 'i' := by
  unfold matchDoiAt at h
  split at h
  case h_2 => exact Option.noConfusion h
  rename_i c1 c2 c3 rest
  split at h
  case isFalse => exact Option.noConfusion h
  rename_i hlab
  dsimp only [] at h
  split at h <;> try exact Option.noConfusion h
  rename_i body hbody
  split at h
  case isFalse => exact Option.noConfusion h
  split at h <;> try exact Option.noConfusion h
  rename_i tail hag
  split at h
  case isTrue => exact Option.noConfusion h
  rename_i hs
  injection h with h
  simp only [Bool.and_eq_true, decide_eq_true_eq] at hlab
  refine ⟨c1, c2, c3, List.takeWhile (fun c => pyIsSpace c || c = ':') rest,
    List.takeWhile Char.isDigit body ++
      (dotDigitGroups (List.drop (List.takeWhile Char.isDigit body).length body)).1 ++ '/' ::
      List.takeWhile (fun c => !(pyIsSpace c || c = ',' || c = ';')) tail,
    ?_, ?_, hlab.1.1, hlab.1.2, hlab.2⟩
  · rw [← h]; simp
  · intro c hc
    have hp := List.mem_takeWhile_imp hc
    rcases Bool.or_eq_true _ _ |>.mp hp with h' | h'
    · exact Or.inl h'
    · exact Or.inr (by simpa using h')

/-- The shape of `matchDoiAt` matches transfers to `searchDoi`. -/
theorem searchDoi_shape : ∀ {s m : List Char}, searchDoi s = some m →
    ∃ c1 c2 c3 gap body,
      m = c1 :: c2 :: c3 :: (gap ++ '1' :: '0' :: '.' :: body) ∧
      (∀ c ∈ gap, pyIsSpace c = true ∨ c = ':') ∧
      c1.toLower = 'd' ∧ c2.toLower = 'o' ∧ c3.toLower = 'i' := by
  intro s
  induction s with
  | nil => intro m h; cases h
  | cons c t ih =>
    intro m h
    rw [searchDoi] at h
    rcases hm : matchDoiAt (c :: t) with _ | m' <;> rw [hm] at h
    · exact ih h
    · cases h
      exact matchDoiAt_shape hm

/-- If `s` contains a `'1'` and any colon in `s` occurs before the first
`'1'`, then the text after the first colon (or all of `s` if there is no
colon) still contains a `'1'`. -/
theorem one_mem_afterFirstColon :
    ∀ {s : List Char}, '1' ∈ s →
      (':' ∈ s → ':' ∈ s.takeWhile (fun c => c ≠ '1')) →
      '1' ∈ afterFirstColon s := by
  intro s
  induction s with
  | nil => intro h; cases h
  | cons c t ih =>
    intro h1 h2
    by_cases hc : c = ':'
    · subst hc
      have ht : '1' ∈ t := by
        rcases List.mem_cons.mp h1 with h | h
        · exact absurd h (by decide)
        · exact h
      have he : afterFirstColon (':' :: t) = t := by
        unfold afterFirstColon
        rw [List.dropWhile_cons]
        simp
      rw [he]; exact ht
    · by_cases h1c : c = '1'
      · by_cases hcs : ':' ∈ c :: t
        · exfalso
          have := h2 hcs
          subst h1c
          rw [List.takeWhile_cons] at this
          simp at this
        · have he : afterFirstColon (c :: t) = c :: t := by
            unfold afterFirstColon
            have : (c :: t).dropWhile (fun x => x ≠ ':') = [] := by
              rw [List.dropWhile_eq_nil_iff]
              intro x hx
              simp only [ne_eq, decide_eq_true_eq]
              intro hx'
              exact hcs (hx' ▸ hx)
            rw [this]
          rw [he]; exact h1
      · have h1t : '1' ∈ t := by
          rcases List.mem_cons.mp h1 with h | h
          · exact absurd h.symm (by simpa [eq_comm] using h1c)
          · exact h
        by_cases hct : ':' ∈ t
        · have hne : t.dropWhile (fun x => x ≠ ':') ≠ [] := by
            rw [Ne, List.dropWhile_eq_nil_iff]
            intro hall
            have := hall ':' hct
            simp at this
          have he : afterFirstColon (c :: t) = afterFirstColon t := by
            unfold afterFirstColon
            rw [List.dropWhile_cons]
            have hpc : (fun x => decide (x ≠ ':')) c = true := by
              simp [hc]
            simp only [hpc, if_true]
            rcases hd : List.dropWhile (fun x => decide (x ≠ ':')) t with _ | ⟨x, r⟩
            · exact absurd hd hne
            · rfl
          rw [he]
          refine ih h1t (fun _ => ?_)
          have := h2 (List.mem_cons_of_mem c hct)
          rw [List.takeWhile_cons] at this
          have hpc : (fun x => decide (x ≠ '1')) c = true := by simp [h1c]
          simp only [hpc, if_true] at this
          rcases List.mem_cons.mp this with h | h
          · exact absurd h.symm hc
          · exact h
        · have he : afterFirstColon (c :: t) = c :: t := by
            unfold afterFirstColon
            have : (c :: t).dropWhile (fun x => x ≠ ':') = [] := by
              rw [List.dropWhile_eq_nil_iff]
              intro x hx
              simp only [ne_eq, decide_eq_true_eq]
              intro hx'
              subst hx'
              rcases List.mem_cons.mp hx with h | h
              · exact hc h.symm
              · exact hct h
            rw [this]
          rw [he]; exact h1

section ValidatorLemmas

variable (fetch : List Char → FetchOutcome) (cm : List Char → Reference → MatchCore)

theorem processUrl_acc (st : CheckResults × Reference) (u : List Char) :
    (processUrl fetch cm st u).1.accessible_urls
      = st.1.accessible_urls ++ (if isOk fetch u then [u] else []) := by
  unfold processUrl isOk
  rcases hf : fetch u with ⟨s, fu, b⟩ | _ | msg <;> simp only [hf]
  · by_cases h : (200 ≤ s && s < 300) = true <;> simp [h]
  · simp
  · simp

theorem processUrl_inacc_map (st : CheckResults × Reference) (u : List Char) :
    (processUrl fetch cm st u).1.inaccessible_urls.map InaccessibleRec.url
      = st.1.inaccessible_urls.map InaccessibleRec.url
          ++ (if isOk fetch u then [] else [u]) := by
  unfold processUrl isOk
  rcases hf : fetch u with ⟨s, fu, b⟩ | _ | msg <;> simp only [hf]
  · by_cases h : (200 ≤ s && s < 300) = true <;> simp [h]
  · simp
  · simp

theorem processUrl_match_map (st : CheckResults × Reference) (u : List Char) :
    (processUrl fetch cm st u).1.match_results.map ContentMatch.url
      = st.1.match_results.map ContentMatch.url
          ++ (if isOk fetch u then [u] else []) := by
  unfold processUrl isOk
  rcases hf : fetch u with ⟨s, fu, b⟩ | _ | msg <;> simp only [hf]
  · by_cases h : (200 ≤ s && s < 300) = true <;> simp [h]
  · simp
  · simp

theorem processUrl_ref (st : CheckResults × Reference) (u : List Char) :
    (processUrl fetch cm st u).2
      = { st.2 with is_accessible := st.2.is_accessible || isOk fetch u } := by
  unfold processUrl isOk
  rcases hf : fetch u with ⟨s, fu, b⟩ | _ | msg <;> simp only [hf]
  · by_cases h : (200 ≤ s && s < 300) = true <;> simp [h]
  · simp
  · simp

theorem foldl_processUrl_acc :
    ∀ (urls : List (List Char)) (st : CheckResults × Reference),
      (urls.foldl (processUrl fetch cm) st).1.accessible_urls
        = st.1.accessible_urls ++ urls.filter (isOk fetch) := by
  intro urls
  induction urls with
  | nil => intro st; simp
  | cons u rest ih =>
    intro st
    rw [List.foldl_cons, ih, processUrl_acc, List.filter_cons]
    by_cases h : isOk fetch u <;> simp [h]

theorem foldl_processUrl_inacc_map :
    ∀ (urls : List (List Char)) (st : CheckResults × Reference),
      (urls.foldl (processUrl fetch cm) st).1.inaccessible_urls.map InaccessibleRec.url
        = st.1.inaccessible_urls.map InaccessibleRec.url
            ++ urls.filter (fun u => !(isOk fetch u)) := by
  intro urls
  induction urls with
  | nil => intro st; simp
  | cons u rest ih =>
    intro st
    rw [List.foldl_cons, ih, processUrl_inacc_map, List.filter_cons]
    by_cases h : isOk fetch u <;> simp [h]

theorem foldl_processUrl_match_map :
    ∀ (urls : List (List Char)) (st : CheckResults × Reference),
      (urls.foldl (processUrl fetch cm) st).1.match_results.map ContentMatch.url
        = st.1.match_results.map ContentMatch.url ++ urls.filter (isOk fetch) := by
  intro urls
  induction urls with
  | nil => intro st; simp
  | cons u rest ih =>
    intro st
    rw [List.foldl_cons, ih, processUrl_match_map, List.filter_cons]
    by_cases h : isOk fetch u <;> simp [h]

theorem foldl_processUrl_ref :
    ∀ (urls : List (List Char)) (st : CheckResults × Reference),
      (urls.foldl (processUrl fetch cm) st).2
        = { st.2 with
              is_accessible := st.2.is_accessible || urls.any (isOk fetch) } := by
  intro urls
  induction urls with
  | nil => intro st; simp
  | cons u rest ih =>
    intro st
    rw [List.foldl_cons, ih, processUrl_ref]
    simp [Bool.or_assoc]

theorem mem_foldl_processUrl_match :
    ∀ (urls : List (List Char)) (st : CheckResults × Reference) {mr : ContentMatch},
      mr ∈ st.1.match_results →
      mr ∈ (urls.foldl (processUrl fetch cm) st).1.match_results := by
  intro urls
  induction urls with
  | nil => intro st mr h; exact h
  | cons u rest ih =>
    intro st mr h
    rw [List.foldl_cons]
    refine ih _ ?_
    unfold processUrl
    rcases hf : fetch u with ⟨s, fu, b⟩ | _ | msg <;> simp only [hf]
    · by_cases hok : (200 ≤ s && s < 300) = true <;> simp [hok, h]
    · simpa using h
    · simpa using h

theorem mem_foldl_processUrl_inacc :
    ∀ (urls : List (List Char)) (st : CheckResults × Reference) {r : InaccessibleRec},
      r ∈ st.1.inaccessible_urls →
      r ∈ (urls.foldl (processUrl fetch cm) st).1.inaccessible_urls := by
  intro urls
  induction urls with
  | nil => intro st r h; exact h
  | cons u rest ih =>
    intro st r h
    rw [List.foldl_cons]
    refine ih _ ?_
    unfold processUrl
    rcases hf : fetch u with ⟨s, fu, b⟩ | _ | msg <;> simp only [hf]
    · by_cases hok : (200 ≤ s && s < 300) = true <;> simp [hok, h]
    · simp [h]
    · simp [h]

/-- Per-URL classification, over the loop with an arbitrary starting
state: each URL of the list ends up recorded according to its fetch
outcome. -/
theorem foldl_processUrl_classify :
    ∀ (urls : List (List Char)) (st : CheckResults × Reference) {u : List Char},
      u ∈ urls →
      (∀ s fu b, fetch u = .success s fu b →
        ((200 ≤ s ∧ s < 300) →
          ∃ mr ∈ (urls.foldl (processUrl fetch cm) st).1.match_results,
            mr.url = u ∧ mr.final_url = fu) ∧
        (¬(200 ≤ s ∧ s < 300) →
          (⟨u, some s, "HTTP ".data ++ (Nat.repr s).data⟩ : InaccessibleRec)
            ∈ (urls.foldl (processUrl fetch cm) st).1.inaccessible_urls)) ∧
      (fetch u = .timeout →
        (⟨u, none, "Timeout".data⟩ : InaccessibleRec)
          ∈ (urls.foldl (processUrl fetch cm) st).1.inaccessible_urls) ∧
      (∀ msg, fetch u = .failure msg →
        (⟨u, none, msg⟩ : InaccessibleRec)
          ∈ (urls.foldl (processUrl fetch cm) st).1.inaccessible_urls) := by
  intro urls
  induction urls with
  | nil => intro st u h; cases h
  | cons v rest ih =>
    intro st u hu
    rcases List.mem_cons.mp hu with rfl | hu
    · refine ⟨?_, ?_, ?_⟩
      · intro s fu b hf
        constructor
        · intro hok
          rw [List.foldl_cons]
          refine ⟨{ title_match := (cm b { st.2 with is_accessible := true }).title_match,
                    authors_found := (cm b { st.2 with is_accessible := true }).authors_found,
                    author_matches := (cm b { st.2 with is_accessible := true }).author_matches,
                    url := u, final_url := fu }, ?_, rfl, rfl⟩
          refine mem_foldl_processUrl_match fetch cm _ _ ?_
          unfold processUrl
          simp only [hf]
          have : (200 ≤ s && s < 300) = true := by
            simp only [Bool.and_eq_true, decide_eq_true_eq]
            exact ⟨hok.1, hok.2⟩
          simp [this]
        · intro hbad
          rw [List.foldl_cons]
          refine mem_foldl_processUrl_inacc fetch cm _ _ ?_
          unfold processUrl
          simp only [hf]
          have : (200 ≤ s && s < 300) = false := by
            rw [Bool.and_eq_false_iff]
            by_cases h2 : 200 ≤ s
            · right
              simp only [decide_eq_false_iff_not, not_lt]
              by_contra hlt
              exact hbad ⟨h2, by simpa using hlt⟩
            · left
              simpa using h2
          simp [this]
      · intro hf
        rw [List.foldl_cons]
        refine mem_foldl_processUrl_inacc fetch cm _ _ ?_
        unfold processUrl
        simp [hf]
      · intro msg hf
        rw [List.foldl_cons]
        refine mem_foldl_processUrl_inacc fetch cm _ _ ?_
        unfold processUrl
        simp [hf]
    · rw [List.foldl_cons]
      exact ih _ hu

end ValidatorLemmas

/-! ## Lemmas about the fallback title -/

theorem mem_of_mem_pyStrip {c : Char} {l : List Char} (h : c ∈ pyStrip l) : c ∈ l := by
  unfold pyStrip at h
  rw [List.mem_reverse] at h
  have h1 := (List.dropWhile_sublist (l := (l.dropWhile pyIsSpace).reverse) (p := pyIsSpace)).mem h
  rw [List.mem_reverse] at h1
  exact (List.dropWhile_sublist (l := l) (p := pyIsSpace)).mem h1

theorem initialsRun_false_of_no_dot {p : List Char} (h : '.' ∉ p) :
    initialsRun p = false := by
  unfold initialsRun
  rcases p with _ | ⟨c, rest⟩
  · rfl
  · dsimp only
    have hm : (match rest.dropWhile pyIsSpace with
        | '.' :: r2 =>
          (match r2.dropWhile pyIsSpace with
           | d :: _ => d.isUpper
           | [] => false)
        | _ => false) = false := by
      split
      · exfalso
        rename_i r2 heq
        apply h
        refine List.mem_cons_of_mem c ?_
        exact (List.dropWhile_sublist (l := rest) (p := pyIsSpace)).mem
          (heq ▸ List.mem_cons_self '.' r2)
      · rfl
    rw [hm, Bool.and_false]

/-- Because the fallback clauses are produced by splitting on commas and
periods, no clause contains a period, so the initials-run exclusion of
line 221 never rejects a clause: the fallback search is equivalent to
taking the first stripped clause longer than 30 characters. -/
theorem fallbackTitle_eq_first_long (ct : List Char) :
    fallbackTitle ct
      = (((splitOnPred (fun c => c = ',' || c = '.') ct).map pyStrip).find?
          (fun p => p.length > 30)).getD [] := by
  unfold fallbackTitle
  congr 1
  apply list_find?_congr
  intro x hx
  rcases List.mem_map.mp hx with ⟨c0, hc0, rfl⟩
  have hnd : '.' ∉ pyStrip c0 := by
    intro hdot
    have := splitOnPred_chunk_chars hc0 (mem_of_mem_pyStrip hdot)
    simp at this
  rw [initialsRun_false_of_no_dot hnd]
  simp

/-! ## Claims -/

/-- C1: the claim says field extraction stores the year as the full
four-digit string of the first `19xx`/`20xx` token.  The code instead
stores the *group-1 capture* of `re.findall(r'\b(19|20)\d{2}\b', text)`,
which is only the two characters `19` or `20`: on an entry containing the
token `2020` the stored year is the two-character string `20`, not
`2020`.  (The unset-when-absent half of the claim does hold.)  This
theorem evaluates the embedded code at the failing input. -/
theorem C1_year_two_char_bug :
    (parseEntry "Smith, J. Machine learning methods, 2020.".data).year
      = some ['2', '0'] ∧
    (parseEntry "Smith, J. Machine learning methods, 2020.".data).year
      ≠ some "2020".data ∧
    (parseEntry "No year token in this entry text.".data).year = none := by
  decide

/-- C2 (counterexample): the DOI regex
`(?:doi|DOI)[\s:]*10\.…` *requires* the case-insensitive `doi` label, so
an entry containing a bare DOI of the stated form, with no label, yields
no DOI and no canonical URL — contradicting the claim's
"whether or not it is preceded by a … label". -/
theorem C2_counterexample :
    (parseEntry "See 10.1000/abc123 for details".data).doi = none ∧
    (parseEntry "See 10.1000/abc123 for details".data).urls = [] := by
  decide

/-- C2 (amended): for every entry in which the labelled DOI pattern
matches, provided any colon of the matched text occurs before the DOI
body (i.e. within the `doi` label separator, as in the usual
`doi:10.…` form — the first `'1'` of the match opens the body), the
extracted `doi` is non-empty, carries no trailing `.,;` punctuation, and
the canonical `https://doi.org/<doi>` URL appears in `urls`. -/
theorem C2_doi_amended (t m : List Char)
    (hs : searchDoi t = some m)
    (hcol : ':' ∈ m → ':' ∈ m.takeWhile (fun c => c ≠ '1')) :
    ∃ d, (parseEntry t).doi = some d ∧ d ≠ [] ∧
      (∀ c, d.getLast? = some c → doiPunct c = false) ∧
      doiOrgUrl d ∈ (parseEntry t).urls := by
  obtain ⟨c1, c2, c3, gap, body, hm, hgap, hd1, hd2, hd3⟩ := searchDoi_shape hs
  have h1m : '1' ∈ m := by
    rw [hm]
    simp
  have h1a : '1' ∈ afterFirstColon m := one_mem_afterFirstColon h1m hcol
  have h1d : '1' ∈ cleanDoi m :=
    mem_pyRstrip (by decide) (mem_pyStrip (by decide) h1a)
  have hdoi : (parseEntry t).doi = some (cleanDoi m) := by
    rcases hy : findYearGroup t with _ | y <;>
      simp [parseEntry, parseReferenceDetails, mkReference, hs, hy]
  have hurls : (parseEntry t).urls
      = (findallUrls t).foldl appendUrl [doiOrgUrl (cleanDoi m)] := by
    rcases hy : findYearGroup t with _ | y <;>
      simp [parseEntry, parseReferenceDetails, mkReference, hs, hy]
  refine ⟨cleanDoi m, hdoi, List.ne_nil_of_mem h1d,
    fun c hc => getLast?_pyRstrip rfl hc, ?_⟩
  rw [hurls]
  exact mem_foldl_appendUrl _ (List.mem_singleton.mpr rfl)

/-- C2 (witness): the amended claim applied to the entry
`doi:10.1000/abc123 end`. -/
theorem C2_doi_amended_witness :
    ∃ d, (parseEntry "doi:10.1000/abc123 end".data).doi = some d ∧ d ≠ [] ∧
      (∀ c, d.getLast? = some c → doiPunct c = false) ∧
      doiOrgUrl d ∈ (parseEntry "doi:10.1000/abc123 end".data).urls :=
  C2_doi_amended "doi:10.1000/abc123 end".data "doi:10.1000/abc123".data
    (by decide) (by decide)

/-- C3 (counterexample): on the exact input `[1] A. [2] B. [3] C.` no
numbering grammar fires (each split pattern requires a newline before the
marker), so segmentation falls through to the line-based heuristic and
returns the whole line as a single candidate, which the >20-character
filter then discards: the result is neither produced by the `[n]` grammar
nor equal to `["A.", "B.", "C."]`. -/
theorem C3_counterexample :
    splitRefs "[1] A. [2] B. [3] C.".data = ["[1] A. [2] B. [3] C.".data] ∧
    splitRefs "[1] A. [2] B. [3] C.".data ≠ ["A.".data, "B.".data, "C.".data] ∧
    parseReferences "[1] A. [2] B. [3] C.".data = [] := by
  decide

/-- C3 (amended): with newline-separated markers,
`"\n[1] A.\n[2] B.\n[3] C."`, the `[n]` grammar fires and the raw split
yields exactly `A.`, `B.`, `C.` in order (these short entries are later
discarded by the >20-character filter of `parse_references`); and within
any single segmentation call exactly one strategy's output is used —
one of the three grammars or the line-based fallback, never a mixture. -/
theorem C3_segmentation_amended :
    splitRefs "\n[1] A.\n[2] B.\n[3] C.".data
      = ["A.".data, "B.".data, "C.".data] ∧
    hasMarker matchBracketMarkerAt "\n[1] A.\n[2] B.\n[3] C.".data = true ∧
    splitRefs "\n[1] A.\n[2] B.\n[3] C.".data
      = refsFromParts (reSplit matchBracketMarkerAt "\n[1] A.\n[2] B.\n[3] C.".data) ∧
    (∀ t : List Char,
      splitRefs t = refsFromParts (reSplit matchBracketMarkerAt t) ∨
      splitRefs t = refsFromParts (reSplit matchDotMarkerAt t) ∨
      splitRefs t = refsFromParts (reSplit matchParenMarkerAt t) ∨
      splitRefs t = lineBasedSplit t) := by
  refine ⟨by decide, by decide, by decide, ?_⟩
  intro t
  unfold splitRefs
  dsimp only
  split_ifs <;> simp_all

/-- C4 (counterexample): the claim says the fallback title is the
*longest* comma/period-delimited clause longer than 30 characters.  The
code takes the *first* such clause: on an entry whose first long clause
(38 characters) precedes a longer qualifying clause (63 characters), the
extracted title is the first clause, not the longest. -/
theorem C4_counterexample :
    (parseEntry "Early methods for the analysis of data, a much more comprehensive survey of machine learning techniques".data).title
      = "Early methods for the analysis of data".data ∧
    "a much more comprehensive survey of machine learning techniques".data
      ∈ ((splitOnPred (fun c => c = ',' || c = '.')
          (cleanedText "Early methods for the analysis of data, a much more comprehensive survey of machine learning techniques".data)).map pyStrip) ∧
    ("a much more comprehensive survey of machine learning techniques".data).length > 30 ∧
    initialsRun "a much more comprehensive survey of machine learning techniques".data = false ∧
    ("Early methods for the analysis of data".data).length
      < ("a much more comprehensive survey of machine learning techniques".data).length := by
  decide

/-- C4 (amended): for every entry in which no quoted title is found in
the cleaned text, the fallback title is the *first* comma/period-delimited
clause whose stripped length exceeds 30 characters (empty when none
exists); the initials-run exclusion is vacuous, because splitting on
commas and periods leaves no period inside any clause. -/
theorem C4_title_amended (t : List Char)
    (h : findQuotedTitle (cleanedText t) = none) :
    (parseEntry t).title
      = (((splitOnPred (fun c => c = ',' || c = '.') (cleanedText t)).map pyStrip).find?
          (fun p => p.length > 30)).getD [] := by
  have htitle : (parseEntry t).title = extractTitle t := by
    rcases hs : searchDoi t with _ | m <;> rcases hy : findYearGroup t with _ | y <;>
      simp [parseEntry, parseReferenceDetails, mkReference, hs, hy]
  rw [htitle]
  unfold extractTitle
  dsimp only
  rw [h]
  exact fallbackTitle_eq_first_long _

/-- C4 (witness): the amended claim applied to a quote-free entry. -/
theorem C4_title_amended_witness :
    (parseEntry "Early methods for the analysis of data, a much more comprehensive survey of machine learning techniques".data).title
      = (((splitOnPred (fun c => c = ',' || c = '.')
            (cleanedText "Early methods for the analysis of data, a much more comprehensive survey of machine learning techniques".data)).map pyStrip).find?
          (fun p => p.length > 30)).getD [] :=
  C4_title_amended
    "Early methods for the analysis of data, a much more comprehensive survey of machine learning techniques".data
    (by decide)

/-- C5: after field extraction the `urls` list of a freshly parsed entry
never contains two textually identical entries: the DOI-derived canonical
URL is appended first, into an empty list, and every literal URL is
appended only after an explicit membership check.  Concretely, a URL
appearing twice verbatim yields one entry, and a literal URL coinciding
with the DOI-derived canonical URL yields exactly one entry. -/
theorem C5_urls_nodup :
    (∀ t : List Char, (parseEntry t).urls.Nodup) ∧
    (parseEntry "Available at https://ex.com/a and https://ex.com/a today".data).urls
      = ["https://ex.com/a".data] ∧
    (parseEntry "doi:10.1000/x7 see https://doi.org/10.1000/x7 now".data).urls
      = ["https://doi.org/10.1000/x7".data] := by
  refine ⟨?_, by decide, by decide⟩
  intro t
  have hurls : (parseEntry t).urls
      = (findallUrls t).foldl appendUrl
          (match searchDoi t with
           | some m => [doiOrgUrl (cleanDoi m)]
           | none => []) := by
    rcases hs : searchDoi t with _ | m <;> rcases hy : findYearGroup t with _ | y <;>
      simp [parseEntry, parseReferenceDetails, mkReference, hs, hy]
  rw [hurls]
  rcases searchDoi t with _ | m
  · exact nodup_foldl_appendUrl _ List.nodup_nil
  · exact nodup_foldl_appendUrl _ (List.nodup_singleton _)

/-- C6: per-URL classification in `check_reference`.  For every URL of
the reference: a 2xx response records the URL as accessible and appends a
content-match record carrying the final post-redirect URL; a non-2xx
status yields an inaccessible record with the status code captured and
reason `HTTP <code>`; a timeout yields reason exactly `Timeout`; any
other transport failure yields its description as the reason.  Failures
are non-fatal: this holds for every URL of the list, so processing always
reaches the later URLs. -/
theorem C6_url_classification
    (fetch : List Char → FetchOutcome) (cm : List Char → Reference → MatchCore)
    (so : Reference → SearchOutcome) (es : Bool) (ref : Reference)
    (u : List Char) (hu : u ∈ ref.urls) :
    (∀ s fu b, fetch u = .success s fu b →
      ((200 ≤ s ∧ s < 300) →
        u ∈ (checkReference fetch cm so es ref).1.accessible_urls ∧
        ∃ mr ∈ (checkReference fetch cm so es ref).1.match_results,
          mr.url = u ∧ mr.final_url = fu) ∧
      (¬(200 ≤ s ∧ s < 300) →
        (⟨u, some s, "HTTP ".data ++ (Nat.repr s).data⟩ : InaccessibleRec)
          ∈ (checkReference fetch cm so es ref).1.inaccessible_urls)) ∧
    (fetch u = .timeout →
      (⟨u, none, "Timeout".data⟩ : InaccessibleRec)
        ∈ (checkReference fetch cm so es ref).1.inaccessible_urls) ∧
    (∀ msg, fetch u = .failure msg →
      (⟨u, none, msg⟩ : InaccessibleRec)
        ∈ (checkReference fetch cm so es ref).1.inaccessible_urls) := by
  have hres : (checkReference fetch cm so es ref).1
      = (ref.urls.foldl (processUrl fetch cm) (⟨⟨[], [], []⟩, ref⟩)).1 := rfl
  rw [hres]
  have hcls := foldl_processUrl_classify fetch cm ref.urls (⟨⟨[], [], []⟩, ref⟩) hu
  refine ⟨?_, hcls.2.1, hcls.2.2⟩
  intro s fu b hf
  refine ⟨?_, ((hcls.1 s fu b hf).2)⟩
  intro hok
  refine ⟨?_, (hcls.1 s fu b hf).1 hok⟩
  rw [foldl_processUrl_acc]
  refine List.mem_append_right _ (List.mem_filter.mpr ⟨hu, ?_⟩)
  unfold isOk
  rw [hf]
  simp only [Bool.and_eq_true, decide_eq_true_eq]
  exact ⟨hok.1, hok.2⟩

/-- C6 (witness): the classification applied to a four-URL reference
exercising all four branches. -/
theorem C6_url_classification_witness :
    "u1".data ∈ (checkReference fetchFour cmZero soFixed false refFour).1.accessible_urls ∧
    (⟨"u2".data, some 404, "HTTP 404".data⟩ : InaccessibleRec)
      ∈ (checkReference fetchFour cmZero soFixed false refFour).1.inaccessible_urls ∧
    (⟨"u3".data, none, "Timeout".data⟩ : InaccessibleRec)
      ∈ (checkReference fetchFour cmZero soFixed false refFour).1.inaccessible_urls ∧
    (⟨"u4".data, none, "boom".data⟩ : InaccessibleRec)
      ∈ (checkReference fetchFour cmZero soFixed false refFour).1.inaccessible_urls :=
  ⟨(((C6_url_classification fetchFour cmZero soFixed false refFour "u1".data
        (by decide)).1 200 "f1".data "body1".data (by decide)).1 (by decide)).1,
   ((C6_url_classification fetchFour cmZero soFixed false refFour "u2".data
        (by decide)).1 404 "f2".data "body2".data (by decide)).2 (by decide),
   (C6_url_classification fetchFour cmZero soFixed false refFour "u3".data
        (by decide)).2.1 (by decide),
   (C6_url_classification fetchFour cmZero soFixed false refFour "u4".data
        (by decide)).2.2 "boom".data (by decide)⟩

/-- C7: for a freshly extracted reference (whose `is_accessible` flag is
still false), after one validator check `is_accessible` is true exactly
when `accessible_urls` is non-empty; in particular an empty `urls` list
or an all-inaccessible list leaves it false. -/
theorem C7_isAccessible_iff
    (fetch : List Char → FetchOutcome) (cm : List Char → Reference → MatchCore)
    (so : Reference → SearchOutcome) (es : Bool) (ref : Reference)
    (h : ref.is_accessible = false) :
    (checkReference fetch cm so es ref).2.is_accessible = true ↔
      (checkReference fetch cm so es ref).1.accessible_urls ≠ [] := by
  have hflag : (checkReference fetch cm so es ref).2.is_accessible
      = (ref.is_accessible || ref.urls.any (isOk fetch)) := by
    unfold checkReference
    dsimp only
    rw [foldl_processUrl_ref]
    by_cases hse : (ref.urls.isEmpty && es) = true <;> simp [hse]
  have hacc : (checkReference fetch cm so es ref).1.accessible_urls
      = ref.urls.filter (isOk fetch) := by
    have : (checkReference fetch cm so es ref).1
        = (ref.urls.foldl (processUrl fetch cm) (⟨⟨[], [], []⟩, ref⟩)).1 := rfl
    rw [this, foldl_processUrl_acc]
    simp
  rw [hflag, hacc, h, Bool.false_or]
  constructor
  · intro hany hnil
    rcases List.any_eq_true.mp hany with ⟨x, hx, hpx⟩
    have : x ∈ ref.urls.filter (isOk fetch) := List.mem_filter.mpr ⟨hx, hpx⟩
    rw [hnil] at this
    cases this
  · intro hne
    rcases List.exists_mem_of_ne_nil _ hne with ⟨x, hx⟩
    rcases List.mem_filter.mp hx with ⟨hxu, hpx⟩
    exact List.any_eq_true.mpr ⟨x, hxu, hpx⟩

/-- C7 (witness): a fresh one-URL reference with a 204 response has
`is_accessible` true and `accessible_urls` non-empty. -/
theorem C7_isAccessible_iff_witness :
    (checkReference fetchOk cmZero soFixed false refOne).2.is_accessible = true ↔
      (checkReference fetchOk cmZero soFixed false refOne).1.accessible_urls ≠ [] :=
  C7_isAccessible_iff fetchOk cmZero soFixed false refOne (by decide)

/-- C8 (counterexample): the claim says that when `urls` is empty and
search is enabled the UrlCheckResult is *left unset*.  The code assigns
`results` to `ref.url_check_results` unconditionally (line 338), so the
reference ends up with an (empty) check record, not an unset one — while
the search output is indeed stored. -/
theorem C8_counterexample :
    (checkReference fetchFour cmZero soFixed true refNoUrls).2.url_check_results
      = some ⟨[], [], []⟩ ∧
    (checkReference fetchFour cmZero soFixed true refNoUrls).2.url_check_results
      ≠ none ∧
    (checkReference fetchFour cmZero soFixed true refNoUrls).2.search_results
      = some (soFixed refNoUrls) := by
  decide

/-- C8 (amended): when `urls` is empty and search is enabled, the search
fallback runs and its output is stored as `search_results`, and the
reference's check record is set to the *empty* results record (not left
unset); the fallback never runs when `urls` is non-empty. -/
theorem C8_search_fallback_amended
    (fetch : List Char → FetchOutcome) (cm : List Char → Reference → MatchCore)
    (so : Reference → SearchOutcome) (es : Bool) (ref : Reference) :
    (ref.urls = [] → es = true →
      (checkReference fetch cm so es ref).2.search_results = some (so ref) ∧
      (checkReference fetch cm so es ref).2.url_check_results
        = some ⟨[], [], []⟩) ∧
    (ref.urls ≠ [] →
      (checkReference fetch cm so es ref).2.search_results
        = ref.search_results) := by
  constructor
  · intro h1 h2
    subst h2
    constructor <;> simp [checkReference, h1]
  · intro h1
    have hie : ref.urls.isEmpty = false := by
      rcases hu : ref.urls with _ | ⟨x, r⟩
      · exact absurd hu h1
      · rfl
    unfold checkReference
    dsimp only
    rw [foldl_processUrl_ref, hie]
    simp

/-- C8 (witness): both halves of the amended claim at concrete
references. -/
theorem C8_search_fallback_amended_witness :
    ((checkReference fetchFour cmZero soFixed true refNoUrls).2.search_results
        = some (soFixed refNoUrls) ∧
      (checkReference fetchFour cmZero soFixed true refNoUrls).2.url_check_results
        = some ⟨[], [], []⟩) ∧
    (checkReference fetchFour cmZero soFixed true refFour).2.search_results
      = refFour.search_results :=
  ⟨(C8_search_fallback_amended fetchFour cmZero soFixed true refNoUrls).1 rfl rfl,
   (C8_search_fallback_amended fetchFour cmZero soFixed true refFour).2 (by decide)⟩

/-- C9 (counterexample): the claim says a result with `titleMatch = 80`
and an author bonus scores 115 (i.e. `(80*2+70)/2`).  In the code the
author bonus requires a snippet, and a non-empty snippet together with a
non-empty reference title forces the snippet-similarity component to
contribute as well, so such a configuration has (at least) three
components: with title similarity 80 and snippet similarity 40 the score
is `(160+40+70)/3 = 90`, not 115. -/
theorem C9_counterexample :
    fuzzEighty (lowerL refScore.title) (lowerL srScore.title) = 80 ∧
    (refScore.authors.take 3).any
      (fun a => containsSub (lowerL (lastNameOf a)) (lowerL srScore.snippet)) = true ∧
    checkSearchResultMatch fuzzEighty srScore refScore = 90 ∧
    checkSearchResultMatch fuzzEighty srScore refScore ≠ 115 := by
  decide

/-- C9 (amended): the score is the weighted sum of contributing
components divided by their count, unclamped: title 80 with snippet 40
and no bonus gives 100; title 80 together with an author bonus
necessarily also includes the snippet component (here 40), giving 90;
with all four components (100-similarity title and snippet, author and
year bonuses) the mean exceeds 100 (105); and with no contributing
component the score is 0. -/
theorem C9_score_amended :
    checkSearchResultMatch fuzzEighty srScore refScoreNoAuthors = 100 ∧
    checkSearchResultMatch fuzzEighty srScore refScore = 90 ∧
    checkSearchResultMatch fuzzHundred srScoreFull refScoreFull = 105 ∧
    checkSearchResultMatch fuzzEighty srScore (mkReference "e".data) = 0 := by
  decide

/-- C10: one validator check is total over `reference.urls`: in list
order, the accessible URLs are exactly those whose fetch is 2xx and the
inaccessible records carry exactly the others, so each URL occurrence is
recorded in exactly one of the two lists; exactly one content-match entry
is appended per accessible URL; and the resulting record is stored on
the reference — also when `urls` is empty. -/
theorem C10_check_reference_total
    (fetch : List Char → FetchOutcome) (cm : List Char → Reference → MatchCore)
    (so : Reference → SearchOutcome) (es : Bool) (ref : Reference) :
    (checkReference fetch cm so es ref).1.accessible_urls
      = ref.urls.filter (isOk fetch) ∧
    (checkReference fetch cm so es ref).1.inaccessible_urls.map InaccessibleRec.url
      = ref.urls.filter (fun u => !(isOk fetch u)) ∧
    (checkReference fetch cm so es ref).1.match_results.map ContentMatch.url
      = (checkReference fetch cm so es ref).1.accessible_urls ∧
    (∀ u ∈ ref.urls,
      (u ∈ (checkReference fetch cm so es ref).1.accessible_urls ∧
        u ∉ (checkReference fetch cm so es ref).1.inaccessible_urls.map InaccessibleRec.url) ∨
      (u ∉ (checkReference fetch cm so es ref).1.accessible_urls ∧
        u ∈ (checkReference fetch cm so es ref).1.inaccessible_urls.map InaccessibleRec.url)) ∧
    (checkReference fetch cm so es ref).2.url_check_results
      = some (checkReference fetch cm so es ref).1 := by
  have hres : (checkReference fetch cm so es ref).1
      = (ref.urls.foldl (processUrl fetch cm) (⟨⟨[], [], []⟩, ref⟩)).1 := rfl
  have hacc : (checkReference fetch cm so es ref).1.accessible_urls
      = ref.urls.filter (isOk fetch) := by
    rw [hres, foldl_processUrl_acc]; simp
  have hinacc : (checkReference fetch cm so es ref).1.inaccessible_urls.map InaccessibleRec.url
      = ref.urls.filter (fun u => !(isOk fetch u)) := by
    rw [hres, foldl_processUrl_inacc_map]; simp
  have hmatch : (checkReference fetch cm so es ref).1.match_results.map ContentMatch.url
      = ref.urls.filter (isOk fetch) := by
    rw [hres, foldl_processUrl_match_map]; simp
  refine ⟨hacc, hinacc, by rw [hmatch, hacc], ?_, ?_⟩
  · intro u hu
    by_cases hok : isOk fetch u
    · left
      refine ⟨hacc ▸ List.mem_filter.mpr ⟨hu, hok⟩, ?_⟩
      rw [hinacc]
      intro hmem
      rcases List.mem_filter.mp hmem with ⟨-, hbad⟩
      rw [hok] at hbad
      cases hbad
    · right
      refine ⟨?_, hinacc ▸ List.mem_filter.mpr ⟨hu, by simpa using hok⟩⟩
      rw [hacc]
      intro hmem
      rcases List.mem_filter.mp hmem with ⟨-, hbad⟩
      exact hok hbad
  · rfl

/-- C10 (witness): totality applied to the four-URL reference, with the
exactly-one-of-the-two-lists conjunct instantiated at the first URL. -/
theorem C10_check_reference_total_witness :
    (checkReference fetchFour cmZero soFixed false refFour).1.accessible_urls
      = refFour.urls.filter (isOk fetchFour) ∧
    (("u1".data ∈ (checkReference fetchFour cmZero soFixed false refFour).1.accessible_urls ∧
        "u1".data ∉ (checkReference fetchFour cmZero soFixed false refFour).1.inaccessible_urls.map InaccessibleRec.url) ∨
      ("u1".data ∉ (checkReference fetchFour cmZero soFixed false refFour).1.accessible_urls ∧
        "u1".data ∈ (checkReference fetchFour cmZero soFixed false refFour).1.inaccessible_urls.map InaccessibleRec.url)) ∧
    (checkReference fetchFour cmZero soFixed false refFour).2.url_check_results
      = some (checkReference fetchFour cmZero soFixed false refFour).1 :=
  ⟨(C10_check_reference_total fetchFour cmZero soFixed false refFour).1,
   (C10_check_reference_total fetchFour cmZero soFixed false refFour).2.2.2.1
     "u1".data (by decide),
   (C10_check_reference_total fetchFour cmZero soFixed false refFour).2.2.2.2⟩

end DoiChecker

section SanityChecks
open DoiChecker
example : pyStrip "  ab c  ".data = "ab c".data := by decide
example : splitOnPred (fun c => c = ',') "a,b,".data = ["a".data, "b".data, []] := by decide
example : containsSub "bc".data "abcd".data = true := by decide
example : pySplitWs "  a bb ".data = ["a".data, "bb".data] := by decide

example : findYearGroup "Smith, J. Machine learning methods, 2020.".data = some ['2', '0'] := by decide

example : searchDoi "See 10.1000/abc123 for details".data = none := by decide

example : searchDoi "doi:10.1000/abc123 x".data = some "doi:10.1000/abc123".data := by decide

example : cleanDoi "DOI 10.1000/abc1".data = "DOI 10.1000/abc1".data := by decide

example : cleanDoi "doi 10.1234/a:".data = [] := by decide

example :
    findallUrls "a https://example.com/paper. b https://ex.com/a and https://ex.com/a today".data
      = ["https://example.com/paper".data, "https://ex.com/a".data, "https://ex.com/a".data] := by
  decide

example :
    (parseEntry "[1] Smith, J. A. \"Deep Learning Survey\" 2020. doi:10.1000/abc123 https://example.com/paper".data).doi
      = some "10.1000/abc123".data := by decide

example :
    (parseEntry "[1] Smith, J. A. \"Deep Learning Survey\" 2020. doi:10.1000/abc123 https://example.com/paper".data).urls
      = ["https://doi.org/10.1000/abc123".data, "https://example.com/paper".data] := by decide

example :
    (parseEntry "[1] Smith, J. A. \"Deep Learning Survey\" 2020. doi:10.1000/abc123 https://example.com/paper".data).title
      = "Deep Learning Survey".data := by decide

example : splitRefs "[1] A. [2] B. [3] C.".data = ["[1] A. [2] B. [3] C.".data] := by decide

example : parseReferences "[1] A. [2] B. [3] C.".data = [] := by decide

example : splitRefs "\n[1] A.\n[2] B.\n[3] C.".data = ["A.".data, "B.".data, "C.".data] := by decide

example : reSplit matchBracketMarkerAt "\n[1] A.\n[2] B.\n[3] C.".data
    = [[], "1".data, "A.".data, "2".data, "B.".data, "3".data, "C.".data] := by decide
end SanityChecks
